import Mathlib

/-!
Shallow embedding of the gitload core: the GitHub URL parser
(src/github-parser.js), the remote content client discovery logic
(src/github-client.js) and the materializer (src/downloader.js).

JavaScript strings are modelled as Lean String, null-able strings as
Option String. JavaScript truthiness on these fields (null and the empty
string are both falsy) is modelled by optTruthy. The WHATWG URL
constructor, an external collaborator, is modelled by parseUrl restricted
to scheme://host/path shapes; Node path helpers basename, dirname and
join are modelled by basename, dirnameOf and joinPath. String scanning
is implemented over character lists by structural recursion so that all
definitions evaluate inside the kernel.
-/

/-- Decidable equality for Except values, used to evaluate concrete
runs of the embedded functions. -/
instance {ε α : Type} [DecidableEq ε] [DecidableEq α] : DecidableEq (Except ε α) := fun a b =>
  match a, b with
  | .ok x, .ok y =>
    if h : x = y then isTrue (congrArg Except.ok h)
    else isFalse (fun hh => h (Except.ok.inj hh))
  | .error x, .error y =>
    if h : x = y then isTrue (congrArg Except.error h)
    else isFalse (fun hh => h (Except.error.inj hh))
  | .ok _, .error _ => isFalse (fun hh => Except.noConfusion hh)
  | .error _, .ok _ => isFalse (fun hh => Except.noConfusion hh)

/-- Model of JavaScript truthiness for a nullable string field: null and
the empty string are falsy, every other string is truthy. -/
def optTruthy : Option String → Bool
  | none => false
  | some s => !(s == "")

/-- Splits a character list on a separator character, keeping empty
pieces, like the JavaScript String.split method. -/
def splitCharsOn (c : Char) : List Char → List (List Char)
  | [] => [[]]
  | x :: xs =>
    if x = c then [] :: splitCharsOn c xs
    else
      match splitCharsOn c xs with
      | [] => [[x]]
      | h :: t => (x :: h) :: t

/-- Splits a string on a separator character, keeping empty pieces. -/
def splitStrOn (c : Char) (s : String) : List String :=
  (splitCharsOn c s.toList).map String.mk

/-- Joins strings with a slash, like the JavaScript Array.join method. -/
def joinSlash : List String → String
  | [] => ""
  | [x] => x
  | x :: y :: xs => x ++ "/" ++ joinSlash (y :: xs)

/-- Whether the first string starts with the second. -/
def strStartsWith (s pre : String) : Bool :=
  decide (pre.toList <+: s.toList)

/-- Drops the first n characters of a string, like the JavaScript
String.slice method from index n. -/
def strDrop (s : String) (n : Nat) : String :=
  String.mk (s.toList.drop n)

/-- Model of the JavaScript String.trim method. -/
def jsTrim (s : String) : String :=
  String.mk (((s.toList.dropWhile Char.isWhitespace).reverse.dropWhile Char.isWhitespace).reverse)

/-- Embeds the trailing-slash strip in parseGitHubUrl: url.replace of
one or more trailing slashes with the empty string. -/
def stripTrailingSlashes (s : String) : String :=
  String.mk (s.toList.reverse.dropWhile (fun c => c = '/')).reverse

/-- Embeds the .git suffix strip in parseGitHubUrl: repo.replace of a
trailing literal .git with the empty string. -/
def stripDotGit (s : String) : String :=
  if ['.', 'g', 'i', 't'] <:+ s.toList then String.mk (s.toList.take (s.toList.length - 4))
  else s

/-- Embeds hostname.includes of the JavaScript code: substring
containment. -/
def hostIncludes (host sub : String) : Bool :=
  decide (sub.toList <:+: host.toList)

/-- Model of the external WHATWG URL constructor, restricted to
scheme://host/path shapes: returns the hostname and the pathname, or
none when the string is not parseable as a URL. -/
def parseUrl (s : String) : Option (String × String) :=
  let cs := s.toList
  let scheme := cs.takeWhile (fun c => c ≠ ':')
  match cs.dropWhile (fun c => c ≠ ':') with
  | ':' :: '/' :: '/' :: rest =>
    if scheme.isEmpty ∨ ¬ scheme.all Char.isAlpha then none
    else
      let host := rest.takeWhile (fun c => c ≠ '/')
      let path := rest.dropWhile (fun c => c ≠ '/')
      if host.isEmpty then none
      else some (String.mk host, if path.isEmpty then "/" else String.mk path)
  | _ => none

/-- Kind discriminator of a parsed GitHub URL, the type field of the
JavaScript record: tree for a folder, blob for a file, root for a bare
owner/repo URL. -/
inductive UrlType where
  | tree
  | blob
  | root
deriving Repr, DecidableEq, BEq

/-- Embeds the ParsedGitHubUrl record of src/github-parser.js. -/
structure ParsedGitHubUrl where
  owner : String
  repo : String
  ref : Option String
  path : Option String
  type : UrlType
deriving Repr, DecidableEq

/-- Embeds the segment-level part of parseGitHubUrl, applied to the
pathname split on slashes with empty segments dropped. -/
def parsePathParts (pathParts : List String) : Except String ParsedGitHubUrl :=
  match pathParts with
  | [] => .error "URL must include owner and repository (e.g., github.com/owner/repo)"
  | [_] => .error "URL must include owner and repository (e.g., github.com/owner/repo)"
  | owner :: repoRaw :: rest =>
    match rest with
    | [] => .ok ⟨owner, stripDotGit repoRaw, none, none, .root⟩
    | pathType :: rest2 =>
      if pathType ≠ "tree" ∧ pathType ≠ "blob" then
        .error ("Unsupported URL format. Expected /tree/ or /blob/ in path. Got: " ++ pathType)
      else
        match rest2 with
        | [] => .error "URL must include a branch/ref after /tree/ or /blob/"
        | ref :: pathSegs =>
          .ok ⟨owner, stripDotGit repoRaw, some ref,
               if joinSlash pathSegs = "" then none else some (joinSlash pathSegs),
               if pathType = "tree" then .tree else .blob⟩

/-- Embeds parseGitHubUrl of src/github-parser.js: trim, strip trailing
slashes, parse as URL, check the host contains github.com, then parse
the non-empty path segments. -/
def parseGitHubUrl (url : String) : Except String ParsedGitHubUrl :=
  match parseUrl (stripTrailingSlashes (jsTrim url)) with
  | none => .error "Invalid URL format"
  | some (host, pathname) =>
    if hostIncludes host "github.com" then
      parsePathParts ((splitStrOn '/' pathname).filter (fun seg => seg != ""))
    else .error "URL must be a GitHub URL (github.com)"

/-- Embeds the ref fallback in getRawUrl and buildTreeApiUrl:
parsed.ref or the literal HEAD when the ref is falsy. -/
def refOrHead (parsed : ParsedGitHubUrl) : String :=
  match parsed.ref with
  | some r => if r = "" then "HEAD" else r
  | none => "HEAD"

/-- Embeds getRawUrl of src/github-parser.js. -/
def getRawUrl (parsed : ParsedGitHubUrl) (filePath : String) : String :=
  "https://raw.githubusercontent.com/" ++ parsed.owner ++ "/" ++ parsed.repo ++ "/" ++
    refOrHead parsed ++ "/" ++ filePath

/-- Embeds the GitHubFile record of src/github-client.js. -/
structure GitHubFile where
  path : String
  downloadUrl : String
  size : Nat
  sha : String
deriving Repr, DecidableEq

/-- One entry of the recursive tree-listing response: a type
discriminator (blob for files, tree for directories), a path, an
optional size and a content hash. -/
structure TreeItem where
  type : String
  path : String
  size : Option Nat
  sha : String
deriving Repr, DecidableEq

/-- Error carried by a failed remote API call: HTTP status and status
text, as thrown by GitHubClient.fetch. -/
structure ApiErr where
  status : Nat
  statusText : String
deriving Repr, DecidableEq

/-- Payload of the single-item contents endpoint used for blob
enrichment: optional size and optional content hash. -/
structure ContentsData where
  size : Option Nat
  sha : Option String
deriving Repr, DecidableEq

/-- Payload of the recursive tree-listing endpoint: the tree field is
absent when the response lacks the expected listing collection. -/
structure TreeResponse where
  tree : Option (List TreeItem)
deriving Repr, DecidableEq

/-- Environment of one discovery run: the response each remote endpoint
would give to the single call the client makes to it. -/
structure DiscoverEnv where
  defaultBranch : Except ApiErr String
  contentsInfo : Except ApiErr ContentsData
  treeData : Except ApiErr TreeResponse

/-- Errors of the discovery phase: a remote API error, or the invalid
response thrown when the tree listing lacks the tree field. -/
inductive DiscoverErr where
  | api (status : Nat) (statusText : String)
  | invalidResponse
deriving Repr, DecidableEq

/-- Embeds the guard of the lazy default-branch lookup in
GitHubClient.getContents: the metadata call happens exactly when the
ref is falsy. -/
def callsDefaultBranch (parsed : ParsedGitHubUrl) : Bool :=
  !(optTruthy parsed.ref)

/-- Embeds the first step of GitHubClient.getContents: resolve and cache
the default branch onto the address when the ref is falsy. -/
def resolveRef (env : DiscoverEnv) (parsed : ParsedGitHubUrl) :
    Except DiscoverErr ParsedGitHubUrl :=
  if callsDefaultBranch parsed then
    match env.defaultBranch with
    | .error e => .error (.api e.status e.statusText)
    | .ok br => .ok { parsed with ref := some br }
  else .ok parsed

/-- Embeds the blob branch of GitHubClient.getContents: a descriptor
built directly from the address, best-effort enriched with size and sha
from the contents endpoint, any enrichment failure swallowed. -/
def blobFile (env : DiscoverEnv) (parsed : ParsedGitHubUrl) (p : String) : GitHubFile :=
  match env.contentsInfo with
  | .ok data => ⟨p, getRawUrl parsed p, data.size.getD 0, data.sha.getD ""⟩
  | .error _ => ⟨p, getRawUrl parsed p, 0, ""⟩

/-- Embeds the descriptor construction in GitHubClient.getTreeContents
for one retained listing entry. -/
def mkTreeFile (parsed : ParsedGitHubUrl) (item : TreeItem) : GitHubFile :=
  ⟨item.path, getRawUrl parsed item.path, item.size.getD 0, item.sha⟩

/-- Embeds the filtering loop of GitHubClient.getTreeContents:
directories are skipped; when the address path is truthy, an entry whose
path equals it exactly is emitted alone and iteration stops, and
otherwise only entries under the path plus slash prefix are retained. -/
def filterTreeItems (parsed : ParsedGitHubUrl) : List TreeItem → List GitHubFile
  | [] => []
  | item :: rest =>
    if item.type ≠ "blob" then filterTreeItems parsed rest
    else
      match parsed.path with
      | some p =>
        if p = "" then mkTreeFile parsed item :: filterTreeItems parsed rest
        else if item.path = p then [mkTreeFile parsed item]
        else if strStartsWith item.path (p ++ "/") then
          mkTreeFile parsed item :: filterTreeItems parsed rest
        else filterTreeItems parsed rest
      | none => mkTreeFile parsed item :: filterTreeItems parsed rest

/-- Embeds GitHubClient.getTreeContents: one recursive tree-listing
call, invalid response when the tree field is missing, then the
filtering loop. -/
def getTreeContents (env : DiscoverEnv) (parsed : ParsedGitHubUrl) :
    Except DiscoverErr (List GitHubFile) :=
  match env.treeData with
  | .error e => .error (.api e.status e.statusText)
  | .ok data =>
    match data.tree with
    | none => .error .invalidResponse
    | some items => .ok (filterTreeItems parsed items)

/-- Embeds GitHubClient.getContents: resolve the ref if falsy, then the
blob branch for a truthy blob path, otherwise the tree listing. -/
def getContents (env : DiscoverEnv) (parsed0 : ParsedGitHubUrl) :
    Except DiscoverErr (List GitHubFile) :=
  match resolveRef env parsed0 with
  | .error e => .error e
  | .ok parsed =>
    match parsed.path with
    | some p =>
      if parsed.type = .blob ∧ p ≠ "" then .ok [blobFile env parsed p]
      else getTreeContents env parsed
    | none => getTreeContents env parsed

/-- Model of the Node path.basename function on posix paths: the last
path component, ignoring trailing slashes. -/
def basename (p : String) : String :=
  String.mk (((p.toList.reverse.dropWhile (fun c => c = '/')).takeWhile
    (fun c => c ≠ '/')).reverse)

/-- Embeds getRelativePath of src/downloader.js: strip the base folder
for a truthy tree path when the file path starts with it, use the
basename for a truthy blob path, and otherwise keep the full path. -/
def getRelativePath (filePath : String) (parsed : ParsedGitHubUrl) : String :=
  let pstr := parsed.path.getD ""
  if optTruthy parsed.path ∧ parsed.type = .tree ∧ strStartsWith filePath (pstr ++ "/") then
    strDrop filePath (pstr ++ "/").toList.length
  else if parsed.type = .blob ∧ optTruthy parsed.path then basename filePath
  else filePath

/-- Model of the Node path.dirname function on posix paths: everything
before the last slash, a dot when there is no slash. -/
def dirnameOf (p : String) : String :=
  if p.toList.contains '/' then
    let pre := ((p.toList.reverse.dropWhile (fun c => c ≠ '/')).drop 1).reverse
    if pre.isEmpty then "/" else String.mk pre
  else "."

/-- Model of the Node path.join function restricted to two segments. -/
def joinPath (a b : String) : String :=
  a ++ "/" ++ b

/-- Environment of one materialization run: what each mkdir, download
and write call would return, keyed by directory path, download URL and
output path. File contents are byte lists. -/
structure FsEnv where
  mkdir : String → Except String Unit
  download : String → Except String (List Nat)
  write : String → List Nat → Except String Unit

/-- Mutable state of the materialization loops: the current counter and
cumulative byte counter of updateProgress, the collected errors, and
the log of updateProgress calls with their file name and byte count. -/
structure MatState where
  current : Nat
  downloadedBytes : Nat
  errors : List (String × String)
  progressLog : List (String × Nat)
deriving Repr, DecidableEq

/-- Embeds updateProgress of src/downloader.js: bump the counters and
record the reported file name and byte count. -/
def updateProgress (st : MatState) (fileName : String) (bytes : Nat) : MatState :=
  { st with current := st.current + 1, downloadedBytes := st.downloadedBytes + bytes,
            progressLog := st.progressLog ++ [(fileName, bytes)] }

/-- Embeds the body of the per-file try block in downloadFiles: mkdir of
the parent directory, then download, then write, first failure wins. -/
def attemptOne (env : FsEnv) (file : GitHubFile) (outPath : String) :
    Except String (List Nat) :=
  match env.mkdir (dirnameOf outPath) with
  | .error e => .error e
  | .ok _ =>
    match env.download file.downloadUrl with
    | .error e => .error e
    | .ok content =>
      match env.write outPath content with
      | .error e => .error e
      | .ok _ => .ok content

/-- Embeds the output path choice in downloadFiles: the output target
verbatim for a single-file download with an explicit file path, else the
target joined with the relative path. -/
def dirOutPath (parsed : ParsedGitHubUrl) (isSingle : Bool) (outputDir : String)
    (file : GitHubFile) : String :=
  if isSingle then outputDir else joinPath outputDir (getRelativePath file.path parsed)

/-- The error entry a file contributes in directory-write mode: its
relative path and message when its attempt fails, none otherwise. -/
def dirErrEntry (env : FsEnv) (parsed : ParsedGitHubUrl) (isSingle : Bool)
    (outputDir : String) (file : GitHubFile) : Option (String × String) :=
  match attemptOne env file (dirOutPath parsed isSingle outputDir file) with
  | .error e => some (getRelativePath file.path parsed, e)
  | .ok _ => none

/-- Embeds one iteration of the downloadFiles loop: attempt the file,
record an error entry on failure, and report progress either way. -/
def dirStep (env : FsEnv) (parsed : ParsedGitHubUrl) (isSingle : Bool) (outputDir : String)
    (st : MatState) (file : GitHubFile) : MatState :=
  let rel := getRelativePath file.path parsed
  match attemptOne env file (dirOutPath parsed isSingle outputDir file) with
  | .ok content => updateProgress st rel content.length
  | .error e => updateProgress { st with errors := st.errors ++ [(rel, e)] } rel 0

/-- Embeds the isSingleFileWithPath flag of downloadFiles. -/
def isSingleOf (parsed : ParsedGitHubUrl) (files : List GitHubFile)
    (outputIsFilePath : Bool) : Bool :=
  parsed.type == .blob && files.length == 1 && outputIsFilePath

/-- Final summary printed by both materialization modes: total files,
success count, the first five failure descriptions, and the number of
further failures only counted. -/
structure MatReport where
  attempted : Nat
  successCount : Nat
  shownErrors : List (String × String)
  moreErrorCount : Nat
deriving Repr, DecidableEq

/-- Builds the summary from the final loop state, as the tail of both
downloadFiles and downloadToZip does. -/
def mkReport (total : Nat) (errors : List (String × String)) : MatReport :=
  ⟨total, total - errors.length, errors.take 5,
   if errors.length > 5 then errors.length - 5 else 0⟩

/-- Embeds downloadFiles of src/downloader.js: the sequential per-file
loop with its per-file try and catch, then the summary. -/
def downloadFiles (env : FsEnv) (files : List GitHubFile) (outputDir : String)
    (parsed : ParsedGitHubUrl) (outputIsFilePath : Bool) : MatState × MatReport :=
  let isSingle := isSingleOf parsed files outputIsFilePath
  let st := files.foldl (dirStep env parsed isSingle outputDir) ⟨0, 0, [], []⟩
  (st, mkReport files.length st.errors)

/-- Observable events of the archive-write mode: one attempted event
per processed file, one appended event per archive entry, and the
single finalize of the archive. -/
inductive ZipEvent where
  | attempted (rel : String)
  | appended (name : String) (content : List Nat)
  | finalized
deriving Repr, DecidableEq, BEq

/-- Mutable state of the downloadToZip loop: the progress state plus
the archive entries and the event log. -/
structure ZipState where
  current : Nat
  downloadedBytes : Nat
  errors : List (String × String)
  entries : List (String × List Nat)
  events : List ZipEvent
deriving Repr, DecidableEq

/-- The error entry a file contributes in archive-write mode: only the
download can fail per file. -/
def zipErrEntry (env : FsEnv) (parsed : ParsedGitHubUrl) (file : GitHubFile) :
    Option (String × String) :=
  match env.download file.downloadUrl with
  | .error e => some (getRelativePath file.path parsed, e)
  | .ok _ => none

/-- Embeds one iteration of the downloadToZip loop: download, append to
the archive on success, record the error on failure, and report
progress either way. -/
def zipStep (env : FsEnv) (parsed : ParsedGitHubUrl) (st : ZipState) (file : GitHubFile) :
    ZipState :=
  let rel := getRelativePath file.path parsed
  match env.download file.downloadUrl with
  | .ok content =>
    { st with current := st.current + 1, downloadedBytes := st.downloadedBytes + content.length,
              entries := st.entries ++ [(rel, content)],
              events := st.events ++ [.appended rel content, .attempted rel] }
  | .error e =>
    { st with current := st.current + 1,
              errors := st.errors ++ [(rel, e)],
              events := st.events ++ [.attempted rel] }

/-- Embeds downloadToZip of src/downloader.js: mkdir of the archive
parent (a failure there aborts the whole call), the sequential per-file
loop, then the single archive finalize and the summary. -/
def downloadToZip (env : FsEnv) (files : List GitHubFile) (zipPath : String)
    (parsed : ParsedGitHubUrl) : Except String (List ZipEvent × ZipState × MatReport) :=
  match env.mkdir (dirnameOf zipPath) with
  | .error e => .error e
  | .ok _ =>
    let st := files.foldl (zipStep env parsed) ⟨0, 0, [], [], []⟩
    .ok (st.events ++ [.finalized], st, mkReport files.length st.errors)

/-- Whether a zip event is a per-file attempt. -/
def isAttemptEvent : ZipEvent → Bool
  | .attempted _ => true
  | _ => false

example : parseGitHubUrl "https://github.com/o/r/tree/main/src" =
    .ok ⟨"o", "r", some "main", some "src", .tree⟩ := by decide

example : parseGitHubUrl "https://github.com/o/.git" =
    .ok ⟨"o", "", none, none, .root⟩ := by decide

example : parseGitHubUrl "https://notgithub.com/o/r" =
    .ok ⟨"o", "r", none, none, .root⟩ := by decide

example : parseGitHubUrl "not a url" = .error "Invalid URL format" := by decide

example : parseGitHubUrl "https://github.com/o/r/blob/main" =
    .ok ⟨"o", "r", some "main", none, .blob⟩ := by decide

example : parseGitHubUrl "https://example.org/o/r" =
    .error "URL must be a GitHub URL (github.com)" := by decide

example : parseGitHubUrl "https://github.com/o/r/tree" =
    .error "URL must include a branch/ref after /tree/ or /blob/" := by decide

example : parseGitHubUrl "  https://github.com/o/r.git/  " =
    .ok ⟨"o", "r", none, none, .root⟩ := by decide

example : parseGitHubUrl "https://github.com/o/r/main/x" =
    .error "Unsupported URL format. Expected /tree/ or /blob/ in path. Got: main" := by decide

example : parseGitHubUrl "https://github.com/o/r/blob/main/docs/guide/intro.md" =
    .ok ⟨"o", "r", some "main", some "docs/guide/intro.md", .blob⟩ := by decide

example : getTreeContents
    ⟨.ok "main", .error ⟨500, "x"⟩,
     .ok ⟨some [⟨"blob", "src/a.ts", some 1, "s1"⟩, ⟨"blob", "src/sub/b.ts", some 2, "s2"⟩,
               ⟨"blob", "other/c.ts", some 3, "s3"⟩]⟩⟩
    ⟨"o", "r", some "main", some "src", .tree⟩ =
    .ok [⟨"src/a.ts", "https://raw.githubusercontent.com/o/r/main/src/a.ts", 1, "s1"⟩,
         ⟨"src/sub/b.ts", "https://raw.githubusercontent.com/o/r/main/src/sub/b.ts", 2, "s2"⟩] := by
  decide

example : getRelativePath "src/sub/b.ts" ⟨"o", "r", some "main", some "src", .tree⟩ =
    "sub/b.ts" := by decide

example : getRelativePath "docs/guide/intro.md" ⟨"o", "r", some "main",
    some "docs/guide/intro.md", .blob⟩ = "intro.md" := by decide

example : filterTreeItems ⟨"o", "r", some "main", some "src", .tree⟩
    [⟨"blob", "src/a.ts", some 1, "s1"⟩, ⟨"blob", "src", some 2, "s2"⟩] =
    [⟨"src/a.ts", "https://raw.githubusercontent.com/o/r/main/src/a.ts", 1, "s1"⟩,
     ⟨"src", "https://raw.githubusercontent.com/o/r/main/src", 2, "s2"⟩] := by decide

example : getContents
    ⟨.ok "main", .error ⟨500, "x"⟩, .ok ⟨some [⟨"blob", "a", none, "s"⟩, ⟨"blob", "b", none, "t"⟩]⟩⟩
    ⟨"o", "r", some "main", none, .blob⟩ =
    .ok [⟨"a", "https://raw.githubusercontent.com/o/r/main/a", 0, "s"⟩,
         ⟨"b", "https://raw.githubusercontent.com/o/r/main/b", 0, "t"⟩] := by decide

example : getContents
    ⟨.ok "main", .error ⟨500, "x"⟩, .error ⟨500, "x"⟩⟩
    ⟨"o", "r", some "main", some "docs/intro.md", .blob⟩ =
    .ok [⟨"docs/intro.md", "https://raw.githubusercontent.com/o/r/main/docs/intro.md", 0, ""⟩] := by
  decide

/-! Helper lemmas about the parser. -/

/-- Characterization of a successful parsePathParts run: the segment
list has at least two entries; owner and repo come from the first two,
and the remainder is either empty (root) or a marker, a ref and a
possibly-empty path tail. -/
theorem parsePathParts_ok (l : List String) (r : ParsedGitHubUrl)
    (h : parsePathParts l = .ok r) :
    ∃ o rr rest, l = o :: rr :: rest ∧ r.owner = o ∧ r.repo = stripDotGit rr ∧
      ((rest = [] ∧ r.ref = none ∧ r.path = none ∧ r.type = .root) ∨
       (∃ t ref segs, rest = t :: ref :: segs ∧ (t = "tree" ∨ t = "blob") ∧
          r.ref = some ref ∧
          r.type = (if t = "tree" then UrlType.tree else UrlType.blob) ∧
          r.path = (if joinSlash segs = "" then none else some (joinSlash segs)))) := by
  match l with
  | [] => simp [parsePathParts] at h
  | [x] => simp [parsePathParts] at h
  | o :: rr :: [] =>
    simp only [parsePathParts, Except.ok.injEq] at h
    exact ⟨o, rr, [], rfl, by rw [← h], by rw [← h],
      Or.inl ⟨rfl, by rw [← h], by rw [← h], by rw [← h]⟩⟩
  | o :: rr :: t :: rest2 =>
    simp only [parsePathParts] at h
    by_cases ht : t ≠ "tree" ∧ t ≠ "blob"
    · rw [if_pos ht] at h
      exact absurd h (by simp)
    · rw [if_neg ht] at h
      have ht' : t = "tree" ∨ t = "blob" := by tauto
      match rest2, h with
      | [], h => simp at h
      | ref :: segs, h =>
        simp only [Except.ok.injEq] at h
        exact ⟨o, rr, t :: ref :: segs, rfl, by rw [← h], by rw [← h],
          Or.inr ⟨t, ref, segs, rfl, ht', by rw [← h], by rw [← h], by rw [← h]⟩⟩

/-- Characterization of a successful parseGitHubUrl run: the
preprocessed input parses as a URL, the host contains github.com, and
the filtered segments parse successfully. -/
theorem parseGitHubUrl_ok (s : String) (r : ParsedGitHubUrl)
    (h : parseGitHubUrl s = .ok r) :
    ∃ host pathname, parseUrl (stripTrailingSlashes (jsTrim s)) = some (host, pathname) ∧
      hostIncludes host "github.com" = true ∧
      parsePathParts ((splitStrOn '/' pathname).filter (fun seg => seg != "")) = .ok r := by
  unfold parseGitHubUrl at h
  match hu : parseUrl (stripTrailingSlashes (jsTrim s)) with
  | none => rw [hu] at h; exact absurd h (by simp)
  | some (host, pathname) =>
    rw [hu] at h
    dsimp only at h
    by_cases hh : hostIncludes host "github.com" = true
    · rw [if_pos hh] at h
      exact ⟨host, pathname, rfl, hh, h⟩
    · rw [if_neg hh] at h
      exact absurd h (by simp)

/-- Every segment kept by the parser filter is non-empty. -/
theorem filtered_seg_ne (pathname : String) (x : String)
    (hx : x ∈ (splitStrOn '/' pathname).filter (fun seg => seg != "")) : x ≠ "" := by
  have := List.of_mem_filter hx
  simpa using this

/-- C9: for every input on which resolve succeeds, the address has kind
root exactly when both reference and path are absent, every tree or
blob address has a reference, and the lazy default-branch call guard of
discovery only fires for root-kind addresses. -/
theorem root_kind_iff_no_ref_path (s : String) (r : ParsedGitHubUrl)
    (h : parseGitHubUrl s = .ok r) :
    (r.type = .root ↔ (r.ref = none ∧ r.path = none)) ∧
    ((r.type = .tree ∨ r.type = .blob) → r.ref ≠ none) ∧
    (callsDefaultBranch r = true → r.type = .root) := by
  obtain ⟨host, pathname, hu, hh, hp⟩ := parseGitHubUrl_ok s r h
  obtain ⟨o, rr, rest, hl, ho, hr, hcase⟩ := parsePathParts_ok _ r hp
  rcases hcase with ⟨_, href, hpath, htype⟩ | ⟨t, ref, segs, hrest, ht, href, htype, hpath⟩
  · refine ⟨by simp [htype, href, hpath], ?_, fun _ => htype⟩
    intro hd
    rw [htype] at hd
    rcases hd with hd | hd <;> simp at hd
  · have htne : r.type ≠ .root := by
      rw [htype]; rcases ht with ht | ht <;> simp [ht]
    have hrefne : r.ref ≠ none := by rw [href]; simp
    refine ⟨⟨fun hroot => absurd hroot htne, fun hc => absurd hc.1 hrefne⟩,
      fun _ => hrefne, ?_⟩
    intro hcall
    rw [callsDefaultBranch, href] at hcall
    simp [optTruthy] at hcall
    have hmem : ref ∈ (splitStrOn '/' pathname).filter (fun seg => seg != "") := by
      rw [hl, hrest]; simp
    exact absurd hcall (filtered_seg_ne pathname ref hmem)

/-- C9 witness: the theorem applied to the concrete root URL. -/
theorem root_kind_iff_no_ref_path_witness :
    ((ParsedGitHubUrl.mk "o" "r" none none .root).type = .root ↔
      ((ParsedGitHubUrl.mk "o" "r" none none .root).ref = none ∧
       (ParsedGitHubUrl.mk "o" "r" none none .root).path = none)) ∧
    (((ParsedGitHubUrl.mk "o" "r" none none .root).type = .tree ∨
      (ParsedGitHubUrl.mk "o" "r" none none .root).type = .blob) →
      (ParsedGitHubUrl.mk "o" "r" none none .root).ref ≠ none) ∧
    (callsDefaultBranch (ParsedGitHubUrl.mk "o" "r" none none .root) = true →
      (ParsedGitHubUrl.mk "o" "r" none none .root).type = .root) :=
  root_kind_iff_no_ref_path "https://github.com/o/r" ⟨"o", "r", none, none, .root⟩ (by decide)

/-- C8 counterexample: the input whose second path segment is the
literal .git resolves successfully to an empty repository name, so the
repository field is not always non-empty. -/
theorem repo_empty_counterexample :
    parseGitHubUrl "https://github.com/o/.git" = .ok ⟨"o", "", none, none, .root⟩ ∧
    ("" : String).length = 0 := ⟨by decide, by decide⟩

/-- C8 amended: on every successful resolve, owner is the first
non-empty segment and is non-empty, and the repository is the second
segment with a trailing .git removed; the repository can only be empty
when that segment is exactly .git. -/
theorem repo_second_segment (s : String) (r : ParsedGitHubUrl)
    (h : parseGitHubUrl s = .ok r) :
    ∃ host pathname o rr rest,
      parseUrl (stripTrailingSlashes (jsTrim s)) = some (host, pathname) ∧
      (splitStrOn '/' pathname).filter (fun seg => seg != "") = o :: rr :: rest ∧
      r.owner = o ∧ r.owner ≠ "" ∧ r.repo = stripDotGit rr ∧
      (r.repo = "" → rr = ".git") := by
  obtain ⟨host, pathname, hu, hh, hp⟩ := parseGitHubUrl_ok s r h
  obtain ⟨o, rr, rest, hl, ho, hr, _⟩ := parsePathParts_ok _ r hp
  have hone : o ≠ "" := filtered_seg_ne pathname o (by rw [hl]; simp)
  have hrrne : rr ≠ "" := filtered_seg_ne pathname rr (by rw [hl]; simp)
  refine ⟨host, pathname, o, rr, rest, hu, hl, ho, by rw [ho]; exact hone, hr, ?_⟩
  intro hre
  rw [hr] at hre
  unfold stripDotGit at hre
  by_cases hs : ['.', 'g', 'i', 't'] <:+ rr.toList
  · rw [if_pos hs] at hre
    have hnil : rr.toList.take (rr.toList.length - 4) = [] := by
      have h2 := congrArg String.toList hre
      simpa using h2
    have hlnz : rr.toList ≠ [] := by
      intro hz
      exact hrrne (String.ext (by simpa using hz))
    rcases List.take_eq_nil_iff.mp hnil with h0 | h0
    · have hge : 4 ≤ rr.toList.length := List.IsSuffix.length_le hs
      have heq : rr.toList.length = 4 := by omega
      have hlist : ['.', 'g', 'i', 't'] = rr.toList :=
        List.IsSuffix.eq_of_length hs (by rw [heq]; rfl)
      exact String.ext (by rw [show rr.data = rr.toList from rfl, ← hlist])
    · exact absurd h0 hlnz
  · rw [if_neg hs] at hre
    exact absurd hre hrrne

/-- C8 witness: the theorem applied to a concrete URL with a .git
suffix on the repository segment. -/
theorem repo_second_segment_witness :
    ∃ host pathname o rr rest,
      parseUrl (stripTrailingSlashes (jsTrim "https://github.com/foo/bar.git")) =
        some (host, pathname) ∧
      (splitStrOn '/' pathname).filter (fun seg => seg != "") = o :: rr :: rest ∧
      (ParsedGitHubUrl.mk "foo" "bar" none none .root).owner = o ∧
      (ParsedGitHubUrl.mk "foo" "bar" none none .root).owner ≠ "" ∧
      (ParsedGitHubUrl.mk "foo" "bar" none none .root).repo = stripDotGit rr ∧
      ((ParsedGitHubUrl.mk "foo" "bar" none none .root).repo = "" → rr = ".git") :=
  repo_second_segment "https://github.com/foo/bar.git" ⟨"foo", "bar", none, none, .root⟩
    (by decide)

/-- C5 counterexample: a URL whose host differs from github.com but
contains it as a substring resolves successfully, so resolve does not
fail on every URL whose host is not github.com. -/
theorem resolve_host_counterexample :
    parseUrl (stripTrailingSlashes (jsTrim "https://notgithub.com/o/r")) =
      some ("notgithub.com", "/o/r") ∧
    "notgithub.com" ≠ "github.com" ∧
    parseGitHubUrl "https://notgithub.com/o/r" = .ok ⟨"o", "r", none, none, .root⟩ :=
  ⟨by decide, by decide, by decide⟩

/-- C5 amended: resolve fails for unparseable strings, for hosts that
do not contain github.com as a substring, for fewer than two path
segments, for a third segment that is neither tree nor blob, and for a
marker with no following reference segment. -/
theorem resolve_failure_classes (s : String) :
    (parseUrl (stripTrailingSlashes (jsTrim s)) = none →
      parseGitHubUrl s = .error "Invalid URL format") ∧
    (∀ host pathname, parseUrl (stripTrailingSlashes (jsTrim s)) = some (host, pathname) →
      (hostIncludes host "github.com" = false →
        parseGitHubUrl s = .error "URL must be a GitHub URL (github.com)") ∧
      (hostIncludes host "github.com" = true →
        ∀ l, (splitStrOn '/' pathname).filter (fun seg => seg != "") = l →
          ((l.length < 2 →
             parseGitHubUrl s =
               .error "URL must include owner and repository (e.g., github.com/owner/repo)") ∧
           (∀ o rr t rest, l = o :: rr :: t :: rest → t ≠ "tree" → t ≠ "blob" →
             parseGitHubUrl s =
               .error ("Unsupported URL format. Expected /tree/ or /blob/ in path. Got: " ++ t)) ∧
           (∀ o rr t, l = [o, rr, t] → (t = "tree" ∨ t = "blob") →
             parseGitHubUrl s =
               .error "URL must include a branch/ref after /tree/ or /blob/")))) := by
  constructor
  · intro hu
    unfold parseGitHubUrl
    rw [hu]
  · intro host pathname hu
    constructor
    · intro hh
      unfold parseGitHubUrl
      rw [hu]
      dsimp only
      rw [if_neg (by simp [hh])]
    · intro hh l hl
      have hmain : parseGitHubUrl s = parsePathParts l := by
        unfold parseGitHubUrl
        rw [hu]
        dsimp only
        rw [if_pos hh, hl]
      refine ⟨?_, ?_, ?_⟩
      · intro hlen
        rw [hmain]
        rcases l with _ | ⟨a, l⟩
        · rfl
        rcases l with _ | ⟨b, l⟩
        · rfl
        · simp at hlen
          omega
      · intro o rr t rest hlrw ht1 ht2
        rw [hmain, hlrw]
        simp [parsePathParts, ht1, ht2]
      · intro o rr t hlrw ht
        rw [hmain, hlrw]
        rcases ht with rfl | rfl <;> simp [parsePathParts]

/-- C5 witness: the theorem applied to a concrete URL with a single
path segment. -/
theorem resolve_failure_classes_witness :
    parseGitHubUrl "https://github.com/owner" =
      .error "URL must include owner and repository (e.g., github.com/owner/repo)" :=
  (((resolve_failure_classes "https://github.com/owner").2 "github.com" "/owner"
    (by decide)).2 (by decide) ["owner"] (by decide)).1 (by decide)

/-! Helper lemmas and claims about discovery. -/

/-- Whether an Except value is a success. -/
def exceptIsOk {ε α : Type} : Except ε α → Bool
  | .ok _ => true
  | .error _ => false

/-- When no listing entry path equals the truthy address path, the
filtering loop keeps exactly the blob entries under the path plus slash
prefix, in listing order. -/
theorem filterTree_no_exact (parsed : ParsedGitHubUrl) (p : String)
    (hp : parsed.path = some p) (hne : p ≠ "") :
    ∀ items : List TreeItem, (∀ it ∈ items, it.path ≠ p) →
      filterTreeItems parsed items =
        (items.filter (fun it => it.type == "blob" && strStartsWith it.path (p ++ "/"))).map
          (mkTreeFile parsed) := by
  intro items
  induction items with
  | nil => intro _; rfl
  | cons item rest ih =>
    intro hnot
    have hrest := fun it hit => hnot it (List.mem_cons_of_mem _ hit)
    have hitem : item.path ≠ p := hnot item (List.mem_cons_self _ _)
    by_cases htype : item.type = "blob"
    · by_cases hsw : strStartsWith item.path (p ++ "/") = true
      · simp [filterTreeItems, hp, htype, hne, hitem, hsw, List.filter_cons, ih hrest]
      · simp [filterTreeItems, hp, htype, hne, hitem, hsw, List.filter_cons, ih hrest]
    · simp [filterTreeItems, hp, htype, List.filter_cons, ih hrest]

/-- When the first exact-path blob entry is reached, the filtering loop
emits it and stops, ignoring everything after it. -/
theorem filterTree_exact_stop (parsed : ParsedGitHubUrl) (p : String)
    (hp : parsed.path = some p) (hne : p ≠ "")
    (e : TreeItem) (hblob : e.type = "blob") (hpath : e.path = p) :
    ∀ pre : List TreeItem, (∀ x ∈ pre, ¬(x.type = "blob" ∧ x.path = p)) →
    ∀ post : List TreeItem,
      filterTreeItems parsed (pre ++ e :: post) =
        filterTreeItems parsed pre ++ [mkTreeFile parsed e] := by
  intro pre
  induction pre with
  | nil =>
    intro _ post
    simp [filterTreeItems, hp, hblob, hne, hpath]
  | cons x xs ih =>
    intro hx post
    have hxs := fun y hy => hx y (List.mem_cons_of_mem _ hy)
    have hxnot := hx x (List.mem_cons_self _ _)
    by_cases htype : x.type = "blob"
    · have hxp : x.path ≠ p := fun hc => hxnot ⟨htype, hc⟩
      by_cases hsw : strStartsWith x.path (p ++ "/") = true
      · simp [filterTreeItems, hp, htype, hne, hxp, hsw, ih hxs post]
      · simp [filterTreeItems, hp, htype, hne, hxp, hsw, ih hxs post]
    · simp [filterTreeItems, hp, htype, ih hxs post]

/-- C1: for a tree-kind address with a truthy path, when no listing
entry path equals the address path, discovery retains exactly the blob
entries whose paths start with the address path plus a slash, in
listing order, and the materializer derives each retained relative path
by stripping that prefix. -/
theorem treeDiscovery_prefix_filter (parsed : ParsedGitHubUrl) (p : String)
    (env : DiscoverEnv) (items : List TreeItem)
    (ht : parsed.type = .tree) (hp : parsed.path = some p) (hne : p ≠ "")
    (htree : env.treeData = .ok ⟨some items⟩)
    (hnot : ∀ it ∈ items, it.path ≠ p) :
    getTreeContents env parsed =
      .ok ((items.filter (fun it => it.type == "blob" && strStartsWith it.path (p ++ "/"))).map
        (mkTreeFile parsed)) ∧
    ∀ it ∈ items, strStartsWith it.path (p ++ "/") = true →
      getRelativePath it.path parsed = strDrop it.path (p ++ "/").toList.length := by
  constructor
  · rw [getTreeContents, htree]
    dsimp only
    rw [filterTree_no_exact parsed p hp hne items hnot]
  · intro it _ hsw
    simp [getRelativePath, hp, ht, optTruthy, hne, hsw]

/-- C1 witness: the end-to-end scenario with the tree listing holding
src/a.ts, src/sub/b.ts and other/c.ts under address path src. -/
theorem treeDiscovery_prefix_filter_witness :
    getTreeContents
      ⟨.ok "main", .error ⟨500, "x"⟩,
       .ok ⟨some [⟨"blob", "src/a.ts", some 1, "s1"⟩, ⟨"blob", "src/sub/b.ts", some 2, "s2"⟩,
                 ⟨"blob", "other/c.ts", some 3, "s3"⟩]⟩⟩
      ⟨"o", "r", some "main", some "src", .tree⟩ =
      .ok [⟨"src/a.ts", "https://raw.githubusercontent.com/o/r/main/src/a.ts", 1, "s1"⟩,
           ⟨"src/sub/b.ts", "https://raw.githubusercontent.com/o/r/main/src/sub/b.ts", 2, "s2"⟩] ∧
    getRelativePath "src/a.ts" ⟨"o", "r", some "main", some "src", .tree⟩ = "a.ts" ∧
    getRelativePath "src/sub/b.ts" ⟨"o", "r", some "main", some "src", .tree⟩ = "sub/b.ts" ∧
    parseGitHubUrl "https://github.com/o/r/tree/main/src" =
      .ok ⟨"o", "r", some "main", some "src", .tree⟩ := by
  have h := treeDiscovery_prefix_filter ⟨"o", "r", some "main", some "src", .tree⟩ "src"
    ⟨.ok "main", .error ⟨500, "x"⟩,
     .ok ⟨some [⟨"blob", "src/a.ts", some 1, "s1"⟩, ⟨"blob", "src/sub/b.ts", some 2, "s2"⟩,
               ⟨"blob", "other/c.ts", some 3, "s3"⟩]⟩⟩
    [⟨"blob", "src/a.ts", some 1, "s1"⟩, ⟨"blob", "src/sub/b.ts", some 2, "s2"⟩,
     ⟨"blob", "other/c.ts", some 3, "s3"⟩]
    rfl rfl (by decide) rfl (by decide)
  exact ⟨h.1.trans (by decide), by decide, by decide, by decide⟩

/-- C3 counterexample: a listing with a blob entry retained under the
prefix before the exact-path blob entry yields two descriptors, not
exactly one, even though an entry path exactly equals the address
path. -/
theorem exactMatch_counterexample :
    getTreeContents
      ⟨.ok "main", .error ⟨500, "x"⟩,
       .ok ⟨some [⟨"blob", "src/a.ts", some 1, "s1"⟩, ⟨"blob", "src", some 2, "s2"⟩]⟩⟩
      ⟨"o", "r", some "main", some "src", .tree⟩ =
      .ok [⟨"src/a.ts", "https://raw.githubusercontent.com/o/r/main/src/a.ts", 1, "s1"⟩,
           ⟨"src", "https://raw.githubusercontent.com/o/r/main/src", 2, "s2"⟩] ∧
    ([⟨"src/a.ts", "https://raw.githubusercontent.com/o/r/main/src/a.ts", 1, "s1"⟩,
      ⟨"src", "https://raw.githubusercontent.com/o/r/main/src", 2, "s2"⟩] :
        List GitHubFile).length ≠ 1 := ⟨by decide, by decide⟩

/-- C3 amended: iteration stops at the first exact-path blob entry and
emits it, ignoring every later entry; the result is that entry preceded
by the entries retained before it, hence exactly one descriptor when no
earlier entry was retained. -/
theorem exactMatch_short_circuit (parsed : ParsedGitHubUrl) (p : String) (env : DiscoverEnv)
    (pre post : List TreeItem) (e : TreeItem)
    (hp : parsed.path = some p) (hne : p ≠ "")
    (hblob : e.type = "blob") (hpath : e.path = p)
    (hpre : ∀ x ∈ pre, ¬(x.type = "blob" ∧ x.path = p))
    (htree : env.treeData = .ok ⟨some (pre ++ e :: post)⟩) :
    getTreeContents env parsed = .ok (filterTreeItems parsed pre ++ [mkTreeFile parsed e]) ∧
    (filterTreeItems parsed pre = [] →
      getTreeContents env parsed = .ok [mkTreeFile parsed e]) := by
  have hmain : getTreeContents env parsed =
      .ok (filterTreeItems parsed pre ++ [mkTreeFile parsed e]) := by
    rw [getTreeContents, htree]
    dsimp only
    rw [filterTree_exact_stop parsed p hp hne e hblob hpath pre hpre post]
  exact ⟨hmain, fun hz => by rw [hmain, hz]; rfl⟩

/-- C3 witness: the amended theorem applied to a listing where a
non-retained entry precedes the exact match and a prefixed entry
follows it, yielding exactly one descriptor. -/
theorem exactMatch_short_circuit_witness :
    getTreeContents
      ⟨.ok "main", .error ⟨500, "x"⟩,
       .ok ⟨some [⟨"blob", "other/c.ts", some 3, "s3"⟩, ⟨"blob", "src", some 2, "s2"⟩,
                 ⟨"blob", "src/late.ts", some 4, "s4"⟩]⟩⟩
      ⟨"o", "r", some "main", some "src", .tree⟩ =
      .ok [⟨"src", "https://raw.githubusercontent.com/o/r/main/src", 2, "s2"⟩] := by
  have h := exactMatch_short_circuit ⟨"o", "r", some "main", some "src", .tree⟩ "src"
    ⟨.ok "main", .error ⟨500, "x"⟩,
     .ok ⟨some [⟨"blob", "other/c.ts", some 3, "s3"⟩, ⟨"blob", "src", some 2, "s2"⟩,
               ⟨"blob", "src/late.ts", some 4, "s4"⟩]⟩⟩
    [⟨"blob", "other/c.ts", some 3, "s3"⟩] [⟨"blob", "src/late.ts", some 4, "s4"⟩]
    ⟨"blob", "src", some 2, "s2"⟩ rfl (by decide) rfl rfl (by decide) rfl
  exact (h.2 (by decide)).trans (by decide)

/-- The blob branch of getContents: for a blob-kind address with truthy
path and ref, discovery returns the single enriched descriptor. -/
theorem getContents_blob (env : DiscoverEnv) (parsed : ParsedGitHubUrl) (p : String)
    (ht : parsed.type = .blob) (hp : parsed.path = some p) (hne : p ≠ "")
    (href : optTruthy parsed.ref = true) :
    getContents env parsed = .ok [blobFile env parsed p] := by
  unfold getContents resolveRef callsDefaultBranch
  rw [href]
  simp [hp, ht, hne]

/-- C4 counterexample: a blob-kind address with an absent path falls
through to the tree listing and discovery returns two descriptors, so a
blob-kind address does not yield exactly one descriptor regardless of
whether its path is present or absent. -/
theorem blob_discovery_counterexample :
    (ParsedGitHubUrl.mk "o" "r" (some "main") none .blob).type = .blob ∧
    (getContents
      ⟨.ok "main", .error ⟨500, "x"⟩,
       .ok ⟨some [⟨"blob", "a", none, "s"⟩, ⟨"blob", "b", none, "t"⟩]⟩⟩
      ⟨"o", "r", some "main", none, .blob⟩).toOption.map List.length = some 2 :=
  ⟨rfl, by decide⟩

/-- C4 amended: a blob-kind address with a truthy path and a truthy
reference yields exactly one descriptor, regardless of the tree
listing and of the enrichment response. -/
theorem blob_discovery_single (env : DiscoverEnv) (parsed : ParsedGitHubUrl) (p : String)
    (ht : parsed.type = .blob) (hp : parsed.path = some p) (hne : p ≠ "")
    (href : optTruthy parsed.ref = true) :
    ∃ f, getContents env parsed = .ok [f] :=
  ⟨blobFile env parsed p, getContents_blob env parsed p ht hp hne href⟩

/-- C4 witness: the amended theorem applied to a concrete blob
address. -/
theorem blob_discovery_single_witness :
    ∃ f, getContents ⟨.ok "main", .ok ⟨some 7, some "abc"⟩, .error ⟨500, "x"⟩⟩
      ⟨"o", "r", some "main", some "README.md", .blob⟩ = .ok [f] :=
  blob_discovery_single ⟨.ok "main", .ok ⟨some 7, some "abc"⟩, .error ⟨500, "x"⟩⟩
    ⟨"o", "r", some "main", some "README.md", .blob⟩ "README.md" rfl rfl (by decide) (by decide)

/-- C10: for a blob-kind address with truthy reference and path,
discovery always succeeds with the single descriptor whose download URL
is built directly from the address, and when the enrichment call fails
the error is swallowed and the descriptor has size zero and an empty
hash. -/
theorem blob_discovery_never_fails (env : DiscoverEnv) (parsed : ParsedGitHubUrl) (p : String)
    (ht : parsed.type = .blob) (hp : parsed.path = some p) (hne : p ≠ "")
    (href : optTruthy parsed.ref = true) :
    exceptIsOk (getContents env parsed) = true ∧
    getContents env parsed = .ok [blobFile env parsed p] ∧
    (blobFile env parsed p).path = p ∧
    (blobFile env parsed p).downloadUrl = getRawUrl parsed p ∧
    (∀ e, env.contentsInfo = .error e →
      blobFile env parsed p = ⟨p, getRawUrl parsed p, 0, ""⟩) := by
  have h := getContents_blob env parsed p ht hp hne href
  refine ⟨by rw [h]; rfl, h, ?_, ?_, ?_⟩
  · unfold blobFile
    cases henv : env.contentsInfo <;> rfl
  · unfold blobFile
    cases henv : env.contentsInfo <;> rfl
  · intro e he
    unfold blobFile
    rw [he]

/-- C10 witness: the theorem applied to a blob address whose enrichment
call fails with a 404; discovery still succeeds with size zero and an
empty hash. -/
theorem blob_discovery_never_fails_witness :
    exceptIsOk (getContents ⟨.error ⟨500, "se"⟩, .error ⟨404, "nf"⟩, .error ⟨500, "se"⟩⟩
      ⟨"o", "r", some "main", some "docs/intro.md", .blob⟩) = true ∧
    getContents ⟨.error ⟨500, "se"⟩, .error ⟨404, "nf"⟩, .error ⟨500, "se"⟩⟩
      ⟨"o", "r", some "main", some "docs/intro.md", .blob⟩ =
      .ok [⟨"docs/intro.md", "https://raw.githubusercontent.com/o/r/main/docs/intro.md", 0, ""⟩] := by
  have h := blob_discovery_never_fails ⟨.error ⟨500, "se"⟩, .error ⟨404, "nf"⟩, .error ⟨500, "se"⟩⟩
    ⟨"o", "r", some "main", some "docs/intro.md", .blob⟩ "docs/intro.md" rfl rfl
    (by decide) (by decide)
  exact ⟨h.1, h.2.1.trans (by decide)⟩

/-- C7: for a blob-kind address with a truthy path, the derived
relative path of every descriptor path equals its basename, and for a
path without a trailing slash the basename is the longest slash-free
suffix, the final path segment. -/
theorem blob_relative_path_basename (parsed : ParsedGitHubUrl) (p fp : String)
    (ht : parsed.type = .blob) (hp : parsed.path = some p) (hne : p ≠ "") :
    getRelativePath fp parsed = basename fp ∧
    (fp.toList.getLast? ≠ some '/' →
      basename fp = String.mk ((fp.toList.reverse.takeWhile (fun c => c ≠ '/')).reverse)) := by
  constructor
  · rw [getRelativePath]
    rw [if_neg, if_pos ⟨ht, by simp [optTruthy, hp, hne]⟩]
    intro hc
    exact absurd hc.2.1 (by rw [ht]; simp)
  · intro hlast
    have hdrop : fp.toList.reverse.dropWhile (fun c => c = '/') = fp.toList.reverse := by
      cases hrev : fp.toList.reverse with
      | nil => rfl
      | cons c cs =>
        have hgl : fp.toList.getLast? = some c := by
          rw [← List.head?_reverse, hrev]
          rfl
        rw [List.dropWhile_cons, if_neg]
        simp only [decide_eq_true_eq]
        intro hc
        exact hlast (by rw [hgl, hc])
    rw [basename, hdrop]

/-- C7 witness: the theorem applied to the nested path
docs/guide/intro.md, whose derived relative path is intro.md. -/
theorem blob_relative_path_basename_witness :
    getRelativePath "docs/guide/intro.md"
      ⟨"o", "r", some "main", some "docs/guide/intro.md", .blob⟩ =
      basename "docs/guide/intro.md" ∧
    basename "docs/guide/intro.md" = "intro.md" := by
  have h := blob_relative_path_basename
    ⟨"o", "r", some "main", some "docs/guide/intro.md", .blob⟩
    "docs/guide/intro.md" "docs/guide/intro.md" rfl rfl (by decide)
  exact ⟨h.1, by decide⟩

/-! Helper lemmas and claims about materialization. -/

/-- Byte count updateProgress reports for one file in directory-write
mode: the content length on success, zero on failure. -/
def dirBytes (env : FsEnv) (parsed : ParsedGitHubUrl) (isSingle : Bool) (outputDir : String)
    (file : GitHubFile) : Nat :=
  match attemptOne env file (dirOutPath parsed isSingle outputDir file) with
  | .ok content => content.length
  | .error _ => 0

/-- The archive entry a file contributes in archive-write mode: its
relative path and bytes when the download succeeds, none otherwise. -/
def zipOkEntry (env : FsEnv) (parsed : ParsedGitHubUrl) (file : GitHubFile) :
    Option (String × List Nat) :=
  match env.download file.downloadUrl with
  | .ok content => some (getRelativePath file.path parsed, content)
  | .error _ => none

/-- The events one file contributes to the archive-write log. -/
def zipFileEvents (env : FsEnv) (parsed : ParsedGitHubUrl) (file : GitHubFile) : List ZipEvent :=
  match env.download file.downloadUrl with
  | .ok content => [.appended (getRelativePath file.path parsed) content,
                    .attempted (getRelativePath file.path parsed)]
  | .error _ => [.attempted (getRelativePath file.path parsed)]

/-- Unrolled behaviour of the directory-write loop from any starting
state: every file bumps the counter once and appends one progress entry,
and exactly the failing files append error entries, in order. -/
theorem dirFold_spec (env : FsEnv) (parsed : ParsedGitHubUrl) (isSingle : Bool)
    (outputDir : String) :
    ∀ (files : List GitHubFile) (st : MatState),
      (files.foldl (dirStep env parsed isSingle outputDir) st).current =
        st.current + files.length ∧
      (files.foldl (dirStep env parsed isSingle outputDir) st).progressLog =
        st.progressLog ++ files.map (fun f =>
          (getRelativePath f.path parsed, dirBytes env parsed isSingle outputDir f)) ∧
      (files.foldl (dirStep env parsed isSingle outputDir) st).errors =
        st.errors ++ files.filterMap (dirErrEntry env parsed isSingle outputDir) := by
  intro files
  induction files with
  | nil => intro st; simp
  | cons f rest ih =>
    intro st
    rw [List.foldl_cons]
    obtain ⟨ih1, ih2, ih3⟩ := ih (dirStep env parsed isSingle outputDir st f)
    refine ⟨?_, ?_, ?_⟩
    · rw [ih1]
      cases h : attemptOne env f (dirOutPath parsed isSingle outputDir f) <;>
        simp [dirStep, h, updateProgress] <;> omega
    · rw [ih2]
      cases h : attemptOne env f (dirOutPath parsed isSingle outputDir f) <;>
        simp [dirStep, h, updateProgress, dirBytes]
    · rw [ih3]
      cases h : attemptOne env f (dirOutPath parsed isSingle outputDir f) <;>
        simp [dirStep, h, updateProgress, dirErrEntry]

/-- Unrolled behaviour of the archive-write loop from any starting
state. -/
theorem zipFold_spec (env : FsEnv) (parsed : ParsedGitHubUrl) :
    ∀ (files : List GitHubFile) (st : ZipState),
      (files.foldl (zipStep env parsed) st).current = st.current + files.length ∧
      (files.foldl (zipStep env parsed) st).errors =
        st.errors ++ files.filterMap (zipErrEntry env parsed) ∧
      (files.foldl (zipStep env parsed) st).entries =
        st.entries ++ files.filterMap (zipOkEntry env parsed) ∧
      (files.foldl (zipStep env parsed) st).events =
        st.events ++ files.flatMap (zipFileEvents env parsed) := by
  intro files
  induction files with
  | nil => intro st; simp
  | cons f rest ih =>
    intro st
    rw [List.foldl_cons]
    obtain ⟨ih1, ih2, ih3, ih4⟩ := ih (zipStep env parsed st f)
    refine ⟨?_, ?_, ?_, ?_⟩
    · rw [ih1]
      cases h : env.download f.downloadUrl <;> simp [zipStep, h] <;> omega
    · rw [ih2]
      cases h : env.download f.downloadUrl <;> simp [zipStep, h, zipErrEntry]
    · rw [ih3]
      cases h : env.download f.downloadUrl <;> simp [zipStep, h, zipOkEntry]
    · rw [ih4]
      cases h : env.download f.downloadUrl <;> simp [zipStep, h, zipFileEvents]

/-- No per-file event of the archive-write loop is the finalize
event. -/
theorem zipFileEvents_no_finalized (env : FsEnv) (parsed : ParsedGitHubUrl)
    (files : List GitHubFile) :
    ∀ e ∈ files.flatMap (zipFileEvents env parsed), e ≠ ZipEvent.finalized := by
  intro e he
  obtain ⟨f, _, hef⟩ := List.mem_flatMap.mp he
  unfold zipFileEvents at hef
  cases h : env.download f.downloadUrl <;> rw [h] at hef <;> simp at hef
  · rw [hef]; simp
  · rcases hef with hef | hef <;> rw [hef] <;> simp

/-- Each file contributes exactly one attempt event. -/
theorem zipFileEvents_attempt_count (env : FsEnv) (parsed : ParsedGitHubUrl) :
    ∀ files : List GitHubFile,
      ((files.flatMap (zipFileEvents env parsed)).filter isAttemptEvent).length =
        files.length := by
  intro files
  induction files with
  | nil => rfl
  | cons f rest ih =>
    rw [List.flatMap_cons, List.filter_append, List.length_append, ih]
    cases h : env.download f.downloadUrl <;> simp [zipFileEvents, h, isAttemptEvent] <;> omega

/-- The names of the collected archive entries are the relative paths
of exactly the successfully downloaded files, in order. -/
theorem zipOkEntry_names (env : FsEnv) (parsed : ParsedGitHubUrl) :
    ∀ files : List GitHubFile,
      (files.filterMap (zipOkEntry env parsed)).map Prod.fst =
        (files.filter (fun f => exceptIsOk (env.download f.downloadUrl))).map
          (fun f => getRelativePath f.path parsed) := by
  intro files
  induction files with
  | nil => rfl
  | cons f rest ih =>
    rw [List.filterMap_cons, List.filter_cons]
    cases h : env.download f.downloadUrl <;> simp [zipOkEntry, h, exceptIsOk, ih]

/-- C2: materialization in both modes never aborts on a per-file
failure: the progress counter reaches the list length, every file gets
exactly one progress report in order, the summary reports the full list
as attempted, the collected errors are exactly the failing files, and a
single failure yields a success count one below the total. -/
theorem materialization_attempts_all (env : FsEnv) (files : List GitHubFile)
    (outputDir zipPath : String) (parsed : ParsedGitHubUrl) (outputIsFilePath : Bool)
    (_hne : files ≠ []) :
    ((downloadFiles env files outputDir parsed outputIsFilePath).1.current = files.length ∧
     (downloadFiles env files outputDir parsed outputIsFilePath).1.progressLog.map Prod.fst =
       files.map (fun f => getRelativePath f.path parsed) ∧
     (downloadFiles env files outputDir parsed outputIsFilePath).2.attempted = files.length ∧
     (downloadFiles env files outputDir parsed outputIsFilePath).1.errors =
       files.filterMap (dirErrEntry env parsed
         (isSingleOf parsed files outputIsFilePath) outputDir) ∧
     ((downloadFiles env files outputDir parsed outputIsFilePath).1.errors.length = 1 →
       (downloadFiles env files outputDir parsed outputIsFilePath).2.successCount =
         files.length - 1)) ∧
    (env.mkdir (dirnameOf zipPath) = .ok () →
      ∃ evs st rep, downloadToZip env files zipPath parsed = .ok (evs, st, rep) ∧
        st.current = files.length ∧
        (evs.filter isAttemptEvent).length = files.length ∧
        rep.attempted = files.length ∧
        st.errors = files.filterMap (zipErrEntry env parsed) ∧
        (st.errors.length = 1 → rep.successCount = files.length - 1)) := by
  obtain ⟨hd1, hd2, hd3⟩ :=
    dirFold_spec env parsed (isSingleOf parsed files outputIsFilePath) outputDir files
      ⟨0, 0, [], []⟩
  constructor
  · refine ⟨?_, ?_, rfl, ?_, ?_⟩
    · simpa using hd1
    · rw [show (downloadFiles env files outputDir parsed outputIsFilePath).1.progressLog =
        files.map (fun f => (getRelativePath f.path parsed,
          dirBytes env parsed (isSingleOf parsed files outputIsFilePath) outputDir f)) by
          simpa using hd2]
      simp
    · simpa using hd3
    · intro h1
      show files.length -
        (downloadFiles env files outputDir parsed outputIsFilePath).1.errors.length =
        files.length - 1
      rw [h1]
  · intro hmk
    obtain ⟨hz1, hz2, hz3, hz4⟩ := zipFold_spec env parsed files ⟨0, 0, [], [], []⟩
    refine ⟨_, _, _, by rw [downloadToZip, hmk], by simpa using hz1, ?_, rfl, by simpa using hz2, ?_⟩
    · rw [List.filter_append, List.length_append]
      rw [show (files.foldl (zipStep env parsed) ⟨0, 0, [], [], []⟩).events =
        files.flatMap (zipFileEvents env parsed) by simpa using hz4]
      rw [zipFileEvents_attempt_count env parsed files]
      simp [isAttemptEvent]
    · intro h1
      show files.length -
        (files.foldl (zipStep env parsed) ⟨0, 0, [], [], []⟩).errors.length = files.length - 1
      rw [show (files.foldl (zipStep env parsed) ⟨0, 0, [], [], []⟩).errors.length = 1 from h1]

/-- C2 witness: three files of which exactly the second fails in both
modes; the counter reaches three and the summary reports two
successes. -/
theorem materialization_attempts_all_witness :
    (downloadFiles
      ⟨fun _ => .ok (), fun u => if u = "u2" then .error "boom" else .ok [1, 2, 3],
       fun _ _ => .ok ()⟩
      [⟨"a", "u1", 0, ""⟩, ⟨"b", "u2", 0, ""⟩, ⟨"c", "u3", 0, ""⟩]
      "out" ⟨"o", "r", some "m", none, .root⟩ false).1.current = 3 ∧
    (downloadFiles
      ⟨fun _ => .ok (), fun u => if u = "u2" then .error "boom" else .ok [1, 2, 3],
       fun _ _ => .ok ()⟩
      [⟨"a", "u1", 0, ""⟩, ⟨"b", "u2", 0, ""⟩, ⟨"c", "u3", 0, ""⟩]
      "out" ⟨"o", "r", some "m", none, .root⟩ false).2.successCount = 2 := by
  have h := materialization_attempts_all
    ⟨fun _ => .ok (), fun u => if u = "u2" then .error "boom" else .ok [1, 2, 3],
     fun _ _ => .ok ()⟩
    [⟨"a", "u1", 0, ""⟩, ⟨"b", "u2", 0, ""⟩, ⟨"c", "u3", 0, ""⟩]
    "out" "out.zip" ⟨"o", "r", some "m", none, .root⟩ false (by simp)
  refine ⟨h.1.1, ?_⟩
  have h5 := h.1.2.2.2.2
  have : (downloadFiles
      ⟨fun _ => .ok (), fun u => if u = "u2" then .error "boom" else .ok [1, 2, 3],
       fun _ _ => .ok ()⟩
      [⟨"a", "u1", 0, ""⟩, ⟨"b", "u2", 0, ""⟩, ⟨"c", "u3", 0, ""⟩]
      "out" ⟨"o", "r", some "m", none, .root⟩ false).1.errors.length = 1 := by decide
  exact h5 this

/-- C6: in archive-write mode the finalize event happens exactly once
and last, after all per-file attempts, and the archive entry names are
exactly the relative paths of the successfully downloaded files. -/
theorem archive_finalize_once (env : FsEnv) (files : List GitHubFile) (zipPath : String)
    (parsed : ParsedGitHubUrl) (hmk : env.mkdir (dirnameOf zipPath) = .ok ()) :
    ∃ evs st rep, downloadToZip env files zipPath parsed = .ok (evs, st, rep) ∧
      evs = st.events ++ [ZipEvent.finalized] ∧
      evs.getLast? = some ZipEvent.finalized ∧
      (∀ e ∈ st.events, e ≠ ZipEvent.finalized) ∧
      (evs.filter (fun e => decide (e = ZipEvent.finalized))).length = 1 ∧
      (evs.filter isAttemptEvent).length = files.length ∧
      st.entries.map Prod.fst =
        (files.filter (fun f => exceptIsOk (env.download f.downloadUrl))).map
          (fun f => getRelativePath f.path parsed) := by
  obtain ⟨hz1, hz2, hz3, hz4⟩ := zipFold_spec env parsed files ⟨0, 0, [], [], []⟩
  have hev : (files.foldl (zipStep env parsed) ⟨0, 0, [], [], []⟩).events =
      files.flatMap (zipFileEvents env parsed) := by simpa using hz4
  refine ⟨_, _, _, by rw [downloadToZip, hmk], rfl, List.getLast?_concat _, ?_, ?_, ?_, ?_⟩
  · rw [hev]
    exact zipFileEvents_no_finalized env parsed files
  · rw [List.filter_append, List.length_append, hev]
    have hzero : ((files.flatMap (zipFileEvents env parsed)).filter
        (fun e => decide (e = ZipEvent.finalized))).length = 0 := by
      rw [List.length_eq_zero, List.filter_eq_nil_iff]
      intro e he
      simp only [decide_eq_true_eq]
      exact zipFileEvents_no_finalized env parsed files e he
    rw [hzero]
    rfl
  · rw [List.filter_append, List.length_append, hev,
      zipFileEvents_attempt_count env parsed files]
    simp [isAttemptEvent]
  · rw [show (files.foldl (zipStep env parsed) ⟨0, 0, [], [], []⟩).entries =
      files.filterMap (zipOkEntry env parsed) by simpa using hz3]
    exact zipOkEntry_names env parsed files

/-- C6 witness: the theorem applied to two files of which the second
fails; the archive holds one entry and the finalize event is last. -/
theorem archive_finalize_once_witness :
    ∃ evs st rep, downloadToZip
      ⟨fun _ => .ok (), fun u => if u = "bad" then .error "boom" else .ok [9],
       fun _ _ => .ok ()⟩
      [⟨"x/a.md", "good", 0, ""⟩, ⟨"x/b.md", "bad", 0, ""⟩]
      "out/a.zip" ⟨"o", "r", some "m", some "x", .tree⟩ = .ok (evs, st, rep) ∧
      evs = st.events ++ [ZipEvent.finalized] ∧
      evs.getLast? = some ZipEvent.finalized ∧
      (∀ e ∈ st.events, e ≠ ZipEvent.finalized) ∧
      (evs.filter (fun e => decide (e = ZipEvent.finalized))).length = 1 ∧
      (evs.filter isAttemptEvent).length =
        ([⟨"x/a.md", "good", 0, ""⟩, ⟨"x/b.md", "bad", 0, ""⟩] : List GitHubFile).length ∧
      st.entries.map Prod.fst =
        (([⟨"x/a.md", "good", 0, ""⟩, ⟨"x/b.md", "bad", 0, ""⟩] : List GitHubFile).filter
          (fun f => exceptIsOk ((fun u =>
            if u = "bad" then (Except.error "boom" : Except String (List Nat))
            else Except.ok [9]) f.downloadUrl))).map
          (fun f => getRelativePath f.path ⟨"o", "r", some "m", some "x", .tree⟩) :=
  archive_finalize_once
    ⟨fun _ => .ok (), fun u => if u = "bad" then .error "boom" else .ok [9],
     fun _ _ => .ok ()⟩
    [⟨"x/a.md", "good", 0, ""⟩, ⟨"x/b.md", "bad", 0, ""⟩]
    "out/a.zip" ⟨"o", "r", some "m", some "x", .tree⟩ rfl
